import Mathlib

/-!
Verification of the AI_Robotics view-planning code: a shallow embedding of the
geometry helpers, visibility evaluators, objective functions, Euler-angle
conversions and the randomized viewpoint search, together with theorems that
settle the specification claims about them.

Numpy float arrays of length 3 are modelled as real triples; numpy float
scalars as real numbers.  Fallible numeric operations (division by a zero
norm) follow the Lean convention x / 0 = 0, which stands in for the silent
NaN propagation of numpy.
-/

open Real List

noncomputable section

/-- Three dimensional vector, modelling a numpy array of three floats. -/
abbrev Vec3 : Type := ℝ × ℝ × ℝ

/-- Componentwise vector addition. -/
def vadd (u v : Vec3) : Vec3 := (u.1 + v.1, u.2.1 + v.2.1, u.2.2 + v.2.2)

/-- Componentwise vector subtraction. -/
def vsub (u v : Vec3) : Vec3 := (u.1 - v.1, u.2.1 - v.2.1, u.2.2 - v.2.2)

/-- Division of a vector by a scalar, as in numpy `v / s`. -/
def vdiv (v : Vec3) (s : ℝ) : Vec3 := (v.1 / s, v.2.1 / s, v.2.2 / s)

/-- Multiplication of a vector by a scalar. -/
def vsmul (s : ℝ) (v : Vec3) : Vec3 := (s * v.1, s * v.2.1, s * v.2.2)

/-- Dot product, as in `np.dot`. -/
def dot3 (u v : Vec3) : ℝ := u.1 * v.1 + u.2.1 * v.2.1 + u.2.2 * v.2.2

/-- Cross product, as in `np.cross`. -/
def cross3 (u v : Vec3) : Vec3 :=
  (u.2.1 * v.2.2 - u.2.2 * v.2.1,
   u.2.2 * v.1 - u.1 * v.2.2,
   u.1 * v.2.1 - u.2.1 * v.1)

/-- Euclidean norm, as in `np.linalg.norm`. -/
def norm3 (v : Vec3) : ℝ := Real.sqrt (v.1 ^ 2 + v.2.1 ^ 2 + v.2.2 ^ 2)

/-- Embeds `calculate_face_normal` (identical in Viewplanning.py,
Six_camera.py, Objective_function.py, orientation.py): the cross product of
the two edge vectors divided by its own norm.  The source has no epsilon
guard and no error path, so the function is total. -/
def calculate_face_normal (v1 v2 v3 : Vec3) : Vec3 :=
  vdiv (cross3 (vsub v2 v1) (vsub v3 v1)) (norm3 (cross3 (vsub v2 v1) (vsub v3 v1)))

/-- A triangular face given by its three vertices. -/
abbrev Tri : Type := Vec3 × Vec3 × Vec3

/-- Center of a triangular face, as in `np.mean(face_vertices, axis=0)`. -/
def face_center (t : Tri) : Vec3 := vdiv (vadd t.1 (vadd t.2.1 t.2.2)) 3

/-- Normalized view vector from a face center toward the sensor,
`(sensor_position - face_center) / np.linalg.norm(...)`. -/
def view_vector_of (sensor c : Vec3) : Vec3 := vdiv (vsub sensor c) (norm3 (vsub sensor c))

/-- Back-face visibility test value for one face: the dot product of the face
normal with the normalized sensor-to-face-center view vector. -/
def face_dot (sensor : Vec3) (t : Tri) : ℝ :=
  dot3 (calculate_face_normal t.1 t.2.1 t.2.2) (view_vector_of sensor (face_center t))

/-- Embeds `np.clip(x, lo, hi)`. -/
def npclip (x lo hi : ℝ) : ℝ := min (max x lo) hi

/-- Embeds `np.radians`. -/
def deg2rad (d : ℝ) : ℝ := d * π / 180

/-- Embeds `np.degrees`. -/
def rad2deg (r : ℝ) : ℝ := r * 180 / π

/-- Embeds `calculate_angle` of Objective_function.py, orientation.py and
Testing_with_Euler_angles.py: the dot product is clipped to the interval
from -1 to 1 before `np.arccos`, and the result converted to degrees. -/
def calculate_angle (v1 v2 : Vec3) : ℝ :=
  rad2deg (Real.arccos (npclip (dot3 v1 v2) (-1) 1))

/-! ### The icosahedron mesh (`get_icosahedron`) -/

/-- The golden section used by `get_icosahedron`. -/
def phi_gr : ℝ := (1 + Real.sqrt 5) / 2

/-- The unscaled vertex table of `get_icosahedron`. -/
def icoBase : List Vec3 :=
  [(-1, phi_gr, 0), (1, phi_gr, 0), (-1, -phi_gr, 0), (1, -phi_gr, 0),
   (0, -1, phi_gr), (0, 1, phi_gr), (0, -1, -phi_gr), (0, 1, -phi_gr),
   (phi_gr, 0, -1), (phi_gr, 0, 1), (-phi_gr, 0, -1), (-phi_gr, 0, 1)]

/-- The scale factor `5 / np.linalg.norm(vertices[0])`. -/
def icoScale : ℝ := 5 / norm3 (-1, phi_gr, 0)

/-- The scaled vertex list returned by `get_icosahedron`. -/
def get_icosahedron_vertices : List Vec3 := icoBase.map (fun v => vsmul icoScale v)

/-- The face index table returned by `get_icosahedron`. -/
def get_icosahedron_faces : List (ℕ × ℕ × ℕ) :=
  [(0, 11, 5), (0, 5, 1), (0, 1, 7), (0, 7, 10), (0, 10, 11),
   (1, 5, 9), (5, 11, 4), (11, 10, 2), (10, 7, 6), (7, 1, 8),
   (3, 9, 4), (3, 4, 2), (3, 2, 6), (3, 6, 8), (3, 8, 9),
   (4, 9, 5), (2, 4, 11), (6, 2, 10), (8, 6, 7), (9, 8, 1)]

/-- Undirected edge key: the pair of endpoint indices in ascending order. -/
def edgeKey (i j : ℕ) : ℕ × ℕ := if i ≤ j then (i, j) else (j, i)

/-- The three undirected edges of one face of the index table. -/
def faceEdges (f : ℕ × ℕ × ℕ) : List (ℕ × ℕ) :=
  [edgeKey f.1 f.2.1, edgeKey f.2.1 f.2.2, edgeKey f.2.2 f.1]

/-- All face-edge incidences of the icosahedron face table (60 entries,
three per face, with multiplicity). -/
def icoEdges : List (ℕ × ℕ) := get_icosahedron_faces.flatMap faceEdges

/-- Resolve a face index triple into the triangle of its vertex positions,
as in `vertices[face]`. -/
def faceVerts (verts : List Vec3) (f : ℕ × ℕ × ℕ) : Tri :=
  (verts.getD f.1 (0, 0, 0), verts.getD f.2.1 (0, 0, 0), verts.getD f.2.2 (0, 0, 0))

/-- The icosahedron faces as triangles of vertex positions. -/
def icoTris : List Tri := get_icosahedron_faces.map (faceVerts get_icosahedron_vertices)

/-! ### Theorems for claims C8 and C9 -/

/-- C8: on the collinear points (0,0,0), (1,0,0), (2,0,0) the cross product
norm is zero, yet `calculate_face_normal` raises nothing: it has no epsilon
guard and no `DegenerateFaceError` (no error channel exists in its type),
it divides by the zero norm and silently returns the zero vector, which is
not a unit normal.  This contradicts the claim that a guarded
`DegenerateFaceError` is reported instead of dividing by zero. -/
theorem calculate_face_normal_degenerate_divides_by_zero :
    norm3 (cross3 (vsub ((1 : ℝ), (0 : ℝ), (0 : ℝ)) (0, 0, 0))
        (vsub ((2 : ℝ), (0 : ℝ), (0 : ℝ)) (0, 0, 0))) = 0 ∧
    calculate_face_normal (0, 0, 0) (1, 0, 0) (2, 0, 0) = (0, 0, 0) ∧
    norm3 (calculate_face_normal (0, 0, 0) (1, 0, 0) (2, 0, 0)) ≠ 1 := by
  have h1 : norm3 (cross3 (vsub ((1 : ℝ), (0 : ℝ), (0 : ℝ)) (0, 0, 0))
      (vsub ((2 : ℝ), (0 : ℝ), (0 : ℝ)) (0, 0, 0))) = 0 := by
    simp [norm3, cross3, vsub]
  have h2 : calculate_face_normal (0, 0, 0) (1, 0, 0) (2, 0, 0) = ((0 : ℝ), (0 : ℝ), (0 : ℝ)) := by
    simp [calculate_face_normal, vdiv, cross3, vsub, norm3]
  refine ⟨h1, h2, ?_⟩
  rw [h2]
  simp [norm3]

/-- C9: the generated mesh has exactly 12 vertices and 20 triangular faces,
every face index is below 12, the first vertex has norm exactly 5 after
scaling, and the mesh is closed: every undirected edge appears in exactly
two faces of the face table. -/
theorem ico_mesh_valid :
    get_icosahedron_vertices.length = 12 ∧
    get_icosahedron_faces.length = 20 ∧
    get_icosahedron_faces.all
      (fun f => decide (f.1 < 12 ∧ f.2.1 < 12 ∧ f.2.2 < 12)) = true ∧
    norm3 (get_icosahedron_vertices.getD 0 (0, 0, 0)) = 5 ∧
    icoEdges.all (fun e => decide (icoEdges.count e = 2)) = true := by
  refine ⟨by simp [get_icosahedron_vertices, icoBase], rfl, by decide, ?_, by decide⟩
  have hX : (0 : ℝ) < 1 + phi_gr ^ 2 := by positivity
  have hs0 : (0 : ℝ) < Real.sqrt (1 + phi_gr ^ 2) := Real.sqrt_pos.mpr hX
  have hbase : norm3 (-1, phi_gr, 0) = Real.sqrt (1 + phi_gr ^ 2) := by
    simp [norm3]
  have hscale : icoScale = 5 / Real.sqrt (1 + phi_gr ^ 2) := by
    rw [icoScale, hbase]
  have hnn : (0 : ℝ) ≤ icoScale := by
    rw [hscale]; positivity
  have hv : get_icosahedron_vertices.getD 0 (0, 0, 0) = vsmul icoScale (-1, phi_gr, 0) := by
    simp [get_icosahedron_vertices, icoBase]
  rw [hv]
  have harg : (icoScale * -1) ^ 2 + (icoScale * phi_gr) ^ 2 + (icoScale * 0) ^ 2
      = icoScale ^ 2 * (1 + phi_gr ^ 2) := by ring
  rw [show norm3 (vsmul icoScale (-1, phi_gr, 0))
      = Real.sqrt ((icoScale * -1) ^ 2 + (icoScale * phi_gr) ^ 2 + (icoScale * 0) ^ 2) from rfl]
  rw [harg, Real.sqrt_mul (sq_nonneg icoScale), Real.sqrt_sq hnn, hscale]
  field_simp

/-! ### Visibility records and evaluators -/

open scoped Classical

/-- One row of the per-sensor visibility data of `plot_sensor_and_phases` in
Objective_function.py: the visible face index together with the distance and
angle appended to the parallel lists. -/
abbrev VisRec : Type := ℕ × ℝ × ℝ

/-- The `for face_idx, face in enumerate(faces)` loop body of
`plot_sensor_and_phases` (Objective_function.py, lines 63-91), carrying the
running face index: a face whose dot product is positive contributes its
index, its distance `np.linalg.norm(sensor_position - face_center)` and its
angle `calculate_angle(view_vector, face_normal)`. -/
def visRecsAux (sensor : Vec3) : List Tri → ℕ → List VisRec
  | [], _ => []
  | t :: rest, i =>
    (if 0 < face_dot sensor t then
      [(i, norm3 (vsub sensor (face_center t)),
        calculate_angle (view_vector_of sensor (face_center t))
          (calculate_face_normal t.1 t.2.1 t.2.2))]
     else []) ++ visRecsAux sensor rest (i + 1)

/-- The full visibility record list of one sensor, starting at face index 0. -/
def plot_sensor_visible_records (sensor : Vec3) (ts : List Tri) : List VisRec :=
  visRecsAux sensor ts 0

/-- Embeds `evaluate_visible_faces` of Viewplanning.py: counts the faces
whose normal has positive dot product with the normalized view vector. -/
def evaluate_visible_faces (sensor : Vec3) : List Tri → ℕ
  | [] => 0
  | t :: rest => (if 0 < face_dot sensor t then 1 else 0) + evaluate_visible_faces sensor rest

/-! ### The randomized viewpoint search (`select_best_viewpoint`) -/

/-- The starting sensor position of `select_best_viewpoint`. -/
def initial_position : Vec3 := (10, 0, 0)

/-- Visible-face count of a candidate position over the fixed icosahedron. -/
def eval_count (p : Vec3) : ℕ := evaluate_visible_faces p icoTris

/-- Best stored visible-face count of a candidate pool. -/
def bestSnd (pool : List (Vec3 × ℕ)) : ℕ := (pool.map Prod.snd).foldr max 0

/-- One iteration of `select_best_viewpoint`: the freshly generated candidate
positions (here an arbitrary list, covering every possible outcome of the
random perturbation and sphere projection) are paired with their evaluated
visible-face counts, appended to the pool, sorted by count in descending
order (Python `sorted(..., key=lambda x: x[1], reverse=True)`) and truncated
to the best 10. -/
def search_step (pool : List (Vec3 × ℕ)) (news : List Vec3) : List (Vec3 × ℕ) :=
  ((pool ++ news.map (fun q => (q, eval_count q))).mergeSort
    (fun a b => decide (b.2 ≤ a.2))).take 10

/-- Embeds `select_best_viewpoint` of Viewplanning.py, parameterized by the
sequence of random candidate batches (one list of generated positions per
iteration): starts from the singleton pool holding the initial position with
its evaluation, folds the iteration step, and returns the position stored
first in the final pool. -/
def select_best_viewpoint (seq : List (List Vec3)) : Vec3 :=
  ((seq.foldl search_step
    [(initial_position, eval_count initial_position)]).headD (initial_position, 0)).1

/-! ### The rig objective (`evaluate_coverage_view_plan`) and expected-face score -/

/-- The nested `for i / for j in range(i+1, ...)` overlap loop of
`evaluate_coverage_view_plan`: for every unordered pair of sensors, the
number of shared visible face indices. -/
def overlap_penalty : List (List ℕ) → ℕ
  | [] => 0
  | x :: xs => (xs.map (fun y => (x.toFinset ∩ y.toFinset).card)).sum + overlap_penalty xs

/-- Embeds `evaluate_coverage_view_plan` of Objective_function.py. -/
def evaluate_coverage_view_plan (_sensors_positions : List Vec3)
    (visible_faces : List (List ℕ)) (distances angles : List ℝ) (total_faces : ℕ) : ℝ :=
  let unique_visible_faces := visible_faces.foldl (fun s fs => s ∪ fs.toFinset) ∅
  let coverage_score : ℝ := (unique_visible_faces.card : ℝ) / (total_faces : ℝ)
  let total_distance : ℝ := distances.sum
  let angle_penalty : ℝ := (angles.map (fun a => 1 / (1 + Real.cos (deg2rad a)))).sum
  coverage_score - total_distance / 100 - angle_penalty - (overlap_penalty visible_faces : ℝ) / 10

/-- Embeds the expected-face score of `update_scene` (optimization.py,
line 85): `len(actual & expected) / max(len(expected), 1)`. -/
def update_scene_score (actual_faces expected_faces : Finset ℕ) : ℝ :=
  ((actual_faces ∩ expected_faces).card : ℝ) / ((max expected_faces.card 1 : ℕ) : ℝ)

/-! ### Arguments passed to np.arccos at each angle-computation site -/

/-- The expression handed to `np.arccos` at Six_camera.py line 70 and
Viewplanning.py line 69: the raw dot product, with no clamping. -/
def six_camera_acos_input (dot_product : ℝ) : ℝ := dot_product

/-- The expression handed to `np.arccos` inside `calculate_angle`
(Objective_function.py line 150, orientation.py line 153): the dot product
clipped to the interval from -1 to 1. -/
def calculate_angle_acos_input (cos_angle : ℝ) : ℝ := npclip cos_angle (-1) 1

/-! ### Rotation matrices and Euler-angle extraction -/

/-- A 3 by 3 real matrix with explicitly named entries, modelling the numpy
arrays handed to `rotation_matrix_to_euler_angles`. -/
structure Mat3 where
  m00 : ℝ
  m01 : ℝ
  m02 : ℝ
  m10 : ℝ
  m11 : ℝ
  m12 : ℝ
  m20 : ℝ
  m21 : ℝ
  m22 : ℝ

/-- Matrix product of two `Mat3`, as in `np.dot` / `@` on 3 by 3 arrays. -/
def mat3_mul (A B : Mat3) : Mat3 :=
  ⟨A.m00 * B.m00 + A.m01 * B.m10 + A.m02 * B.m20,
   A.m00 * B.m01 + A.m01 * B.m11 + A.m02 * B.m21,
   A.m00 * B.m02 + A.m01 * B.m12 + A.m02 * B.m22,
   A.m10 * B.m00 + A.m11 * B.m10 + A.m12 * B.m20,
   A.m10 * B.m01 + A.m11 * B.m11 + A.m12 * B.m21,
   A.m10 * B.m02 + A.m11 * B.m12 + A.m12 * B.m22,
   A.m20 * B.m00 + A.m21 * B.m10 + A.m22 * B.m20,
   A.m20 * B.m01 + A.m21 * B.m11 + A.m22 * B.m21,
   A.m20 * B.m02 + A.m21 * B.m12 + A.m22 * B.m22⟩

/-- Embeds `rotation_matrix_x(theta)` (theta in degrees). -/
def rotation_matrix_x (theta : ℝ) : Mat3 :=
  ⟨1, 0, 0,
   0, Real.cos (deg2rad theta), -Real.sin (deg2rad theta),
   0, Real.sin (deg2rad theta), Real.cos (deg2rad theta)⟩

/-- Embeds `rotation_matrix_y(theta)` (theta in degrees, orientation.py). -/
def rotation_matrix_y (theta : ℝ) : Mat3 :=
  ⟨Real.cos (deg2rad theta), 0, Real.sin (deg2rad theta),
   0, 1, 0,
   -Real.sin (deg2rad theta), 0, Real.cos (deg2rad theta)⟩

/-- Embeds `rotation_matrix_z(theta)` (theta in degrees). -/
def rotation_matrix_z (theta : ℝ) : Mat3 :=
  ⟨Real.cos (deg2rad theta), -Real.sin (deg2rad theta), 0,
   Real.sin (deg2rad theta), Real.cos (deg2rad theta), 0,
   0, 0, 1⟩

/-- Embeds `np.arctan2(y, x)` via the complex argument of x + y i. -/
def atan2 (y x : ℝ) : ℝ := Complex.arg ⟨x, y⟩

/-- Embeds `rotation_matrix_to_euler_angles` of Testing_with_Euler_angles.py
(lines 230-243): the version with the singular branch, whose beta uses
`sy = sqrt(R[0,0]^2 + R[1,0]^2)` in both branches. -/
def rotation_matrix_to_euler_angles_T (R : Mat3) : ℝ × ℝ × ℝ :=
  if Real.sqrt (R.m00 ^ 2 + R.m10 ^ 2) < 1e-6 then
    (rad2deg (atan2 (-R.m12) R.m11),
     rad2deg (atan2 (-R.m20) (Real.sqrt (R.m00 ^ 2 + R.m10 ^ 2))), rad2deg 0)
  else
    (rad2deg (atan2 R.m21 R.m22),
     rad2deg (atan2 (-R.m20) (Real.sqrt (R.m00 ^ 2 + R.m10 ^ 2))),
     rad2deg (atan2 R.m10 R.m00))

/-- Embeds `rotation_matrix_to_euler_angles` of orientation.py (lines
241-245): no singular branch, and beta uses `sqrt(R[2,1]^2 + R[2,2]^2)`. -/
def rotation_matrix_to_euler_angles_O (R : Mat3) : ℝ × ℝ × ℝ :=
  (rad2deg (atan2 R.m21 R.m22),
   rad2deg (atan2 (-R.m20) (Real.sqrt (R.m21 ^ 2 + R.m22 ^ 2))),
   rad2deg (atan2 R.m10 R.m00))

/-! ### Spec-side formulations for the rig objective (claim C3) -/

/-- Coverage fraction as the spec words it: the cardinality of the union of
all the visible face index sets, divided by the total face count. -/
def coverage_fraction_spec (visible_faces : List (List ℕ)) (total_faces : ℕ) : ℝ :=
  (((Finset.range visible_faces.length).biUnion
      (fun i => (visible_faces.getD i []).toFinset)).card : ℝ) / (total_faces : ℝ)

/-- Overlap penalty as the spec words it: the sum over every unordered pair
of sensors of the number of shared visible face indices. -/
def overlap_penalty_spec (visible_faces : List (List ℕ)) : ℕ :=
  ∑ i ∈ Finset.range visible_faces.length, ∑ j ∈ Finset.range visible_faces.length,
    if i < j then
      ((visible_faces.getD i []).toFinset ∩ (visible_faces.getD j []).toFinset).card
    else 0

/-- The objective exactly as the spec formula reads. -/
def objective_spec (visible_faces : List (List ℕ)) (distances angles : List ℝ)
    (total_faces : ℕ) : ℝ :=
  coverage_fraction_spec visible_faces total_faces
    - distances.sum / 100
    - (angles.map (fun a => 1 / (1 + Real.cos (deg2rad a)))).sum
    - (overlap_penalty_spec visible_faces : ℝ) / 10

lemma mem_foldl_union (l : List (List ℕ)) (s : Finset ℕ) (a : ℕ) :
    a ∈ l.foldl (fun s fs => s ∪ fs.toFinset) s ↔ a ∈ s ∨ ∃ fs ∈ l, a ∈ fs.toFinset := by
  induction l generalizing s with
  | nil => simp
  | cons x xs ih =>
      rw [List.foldl_cons, ih]
      simp [Finset.mem_union, or_assoc]

lemma foldl_union_eq_biUnion (l : List (List ℕ)) :
    l.foldl (fun s fs => s ∪ fs.toFinset) ∅
      = (Finset.range l.length).biUnion (fun i => (l.getD i []).toFinset) := by
  ext a
  rw [mem_foldl_union]
  simp only [Finset.not_mem_empty, false_or, Finset.mem_biUnion, Finset.mem_range]
  constructor
  · rintro ⟨fs, hfs, ha⟩
    obtain ⟨i, hi, rfl⟩ := List.mem_iff_getElem.mp hfs
    exact ⟨i, hi, by rwa [List.getD_eq_getElem l [] hi]⟩
  · rintro ⟨i, hi, ha⟩
    exact ⟨l.getD i [], by rw [List.getD_eq_getElem l [] hi]; exact List.getElem_mem hi,
      ha⟩

lemma sum_map_eq_sum_range (xs : List (List ℕ)) (g : List ℕ → ℕ) :
    (xs.map g).sum = ∑ j ∈ Finset.range xs.length, g (xs.getD j []) := by
  induction xs with
  | nil => simp
  | cons x t ih =>
      rw [List.map_cons, List.sum_cons, ih, List.length_cons, Finset.sum_range_succ']
      simp [List.getD_cons_succ, List.getD_cons_zero, Nat.add_comm]

lemma overlap_penalty_eq_spec (l : List (List ℕ)) :
    overlap_penalty l = overlap_penalty_spec l := by
  induction l with
  | nil => simp [overlap_penalty, overlap_penalty_spec]
  | cons x xs ih =>
      rw [overlap_penalty, ih]
      unfold overlap_penalty_spec
      rw [List.length_cons, Finset.sum_range_succ']
      have hinner : ∀ i : ℕ,
          (∑ j ∈ Finset.range (xs.length + 1),
            if i + 1 < j then
              (((x :: xs).getD (i + 1) []).toFinset ∩ ((x :: xs).getD j []).toFinset).card
            else 0)
          = ∑ j ∈ Finset.range xs.length,
              if i < j then ((xs.getD i []).toFinset ∩ (xs.getD j []).toFinset).card else 0 := by
        intro i
        rw [Finset.sum_range_succ']
        simp [List.getD_cons_succ, Nat.succ_lt_succ_iff]
      have houter :
          (∑ j ∈ Finset.range (xs.length + 1),
            if 0 < j then (((x :: xs).getD 0 []).toFinset ∩ ((x :: xs).getD j []).toFinset).card
            else 0)
          = (xs.map (fun y => (x.toFinset ∩ y.toFinset).card)).sum := by
        rw [Finset.sum_range_succ']
        rw [sum_map_eq_sum_range xs (fun y => (x.toFinset ∩ y.toFinset).card)]
        simp [List.getD_cons_succ, List.getD_cons_zero]
      rw [Finset.sum_congr rfl (fun i _ => hinner i), houter]
      ring

/-- C3: the rig objective of `evaluate_coverage_view_plan` equals exactly the
spec formula: coverage fraction (union cardinality over total face count)
minus total distance over 100, minus the sum of 1/(1+cos(angle)) over all
visible sensor-face pairs, minus the pairwise overlap penalty over 10. -/
theorem evaluate_coverage_view_plan_eq_spec
    (sensors_positions : List Vec3) (visible_faces : List (List ℕ))
    (distances angles : List ℝ) (total_faces : ℕ) :
    evaluate_coverage_view_plan sensors_positions visible_faces distances angles total_faces
      = objective_spec visible_faces distances angles total_faces := by
  unfold evaluate_coverage_view_plan objective_spec coverage_fraction_spec
  rw [foldl_union_eq_biUnion, overlap_penalty_eq_spec]

/-! ### Claim C4: the expected-face coverage score -/

/-- C4: the score equals the intersection cardinality over max(card, 1); it
is exactly 1 on equal non-empty sets, exactly 0 on disjoint sets, and the
denominator is positive even for an empty expected set, so the computation
never divides by zero. -/
theorem update_scene_score_correct :
    (∀ A E : Finset ℕ, A = E → E.Nonempty → update_scene_score A E = 1) ∧
    (∀ A E : Finset ℕ, Disjoint A E → update_scene_score A E = 0) ∧
    (∀ E : Finset ℕ, (0 : ℝ) < ((max E.card 1 : ℕ) : ℝ)) ∧
    update_scene_score ∅ ∅ = 0 := by
  refine ⟨?_, ?_, ?_, ?_⟩
  · intro A E hAE hE
    subst hAE
    unfold update_scene_score
    rw [Finset.inter_self]
    have hc : 0 < A.card := Finset.card_pos.mpr hE
    rw [max_eq_left hc]
    exact div_self (Nat.cast_ne_zero.mpr hc.ne')
  · intro A E hdisj
    unfold update_scene_score
    rw [Finset.disjoint_iff_inter_eq_empty.mp hdisj]
    simp
  · intro E
    exact_mod_cast lt_of_lt_of_le one_pos (le_max_right E.card 1)
  · unfold update_scene_score
    simp

/-- Witness for C4 at concrete sets. -/
theorem update_scene_score_correct_witness :
    ({3} : Finset ℕ).Nonempty ∧ update_scene_score {3} {3} = 1 ∧
    Disjoint ({3} : Finset ℕ) ({4} : Finset ℕ) ∧ update_scene_score {3} {4} = 0 :=
  ⟨⟨3, by simp⟩, update_scene_score_correct.1 {3} {3} rfl ⟨3, by simp⟩,
    by simp, update_scene_score_correct.2.1 {3} {4} (by simp)⟩

/-! ### Claim C5: clamping of the arccos inputs -/

/-- C5 fails on the code: at Six_camera.py line 70 (and Viewplanning.py line
69) the raw dot product is handed to `np.arccos` unclamped, so an input
above 1 reaches arccos unchanged, while the `calculate_angle` sites do clamp
to the interval from -1 to 1 for every input. -/
theorem arccos_input_clamping_status :
    six_camera_acos_input 2 = 2 ∧
    six_camera_acos_input 2 ∉ Set.Icc (-1 : ℝ) 1 ∧
    ∀ x : ℝ, calculate_angle_acos_input x ∈ Set.Icc (-1 : ℝ) 1 := by
  refine ⟨rfl, ?_, ?_⟩
  · simp [six_camera_acos_input, Set.mem_Icc]
  · intro x
    rw [Set.mem_Icc]
    exact ⟨le_min (le_max_right x (-1)) (by norm_num), min_le_right _ 1⟩

/-! ### Claims C2 and C10: structure of the visibility records -/

/-- Placeholder triangle used only as the default of list indexing. -/
def triDefault : Tri := ((0, 0, 0), (0, 0, 0), (0, 0, 0))

lemma dot3_comm (u v : Vec3) : dot3 u v = dot3 v u := by
  unfold dot3; ring

lemma visRecsAux_idx_bounds (s : Vec3) :
    ∀ (ts : List Tri) (k : ℕ), ∀ r ∈ visRecsAux s ts k, k ≤ r.1 ∧ r.1 < k + ts.length := by
  intro ts
  induction ts with
  | nil => intro k r hr; simp [visRecsAux] at hr
  | cons t rest ih =>
      intro k r hr
      rw [visRecsAux] at hr
      rcases List.mem_append.mp hr with hr | hr
      · split at hr
        · rw [List.mem_singleton] at hr
          subst hr
          exact ⟨le_refl _, by simp only [List.length_cons]; omega⟩
        · simp at hr
      · have h := ih (k + 1) r hr
        exact ⟨by omega, by simp only [List.length_cons]; omega⟩

lemma visRecsAux_pairwise (s : Vec3) :
    ∀ (ts : List Tri) (k : ℕ), List.Pairwise (fun r q : VisRec => r.1 < q.1) (visRecsAux s ts k) := by
  intro ts
  induction ts with
  | nil => intro k; simp [visRecsAux]
  | cons t rest ih =>
      intro k
      rw [visRecsAux, List.pairwise_append]
      refine ⟨?_, ih (k + 1), ?_⟩
      · split
        · exact List.pairwise_singleton _ _
        · exact List.Pairwise.nil
      · intro a ha b hb
        have hb1 := (visRecsAux_idx_bounds s rest (k + 1) b hb).1
        split at ha
        · rw [List.mem_singleton] at ha
          subst ha
          show k < b.1
          omega
        · simp at ha

lemma visRecsAux_mem_iff (s : Vec3) :
    ∀ (ts : List Tri) (k i : ℕ), i < ts.length →
      ((∃ r ∈ visRecsAux s ts k, r.1 = k + i) ↔ 0 < face_dot s (ts.getD i triDefault)) := by
  intro ts
  induction ts with
  | nil => intro k i hi; simp at hi
  | cons t rest ih =>
      intro k i hi
      cases i with
      | zero =>
          simp only [List.getD_cons_zero, Nat.add_zero]
          constructor
          · rintro ⟨r, hr, hidx⟩
            rw [visRecsAux] at hr
            rcases List.mem_append.mp hr with hr | hr
            · split at hr
              next hc => exact hc
              next hc => simp at hr
            · have := (visRecsAux_idx_bounds s rest (k + 1) r hr).1
              omega
          · intro hc
            refine ⟨(k, norm3 (vsub s (face_center t)),
              calculate_angle (view_vector_of s (face_center t))
                (calculate_face_normal t.1 t.2.1 t.2.2)), ?_, rfl⟩
            rw [visRecsAux, if_pos hc]
            exact List.mem_append_left _ (List.mem_singleton.mpr rfl)
      | succ j =>
          have hj : j < rest.length := by
            simp only [List.length_cons] at hi; omega
          simp only [List.getD_cons_succ]
          rw [← ih (k + 1) j hj]
          constructor
          · rintro ⟨r, hr, hidx⟩
            rw [visRecsAux] at hr
            rcases List.mem_append.mp hr with hr | hr
            · split at hr
              · rw [List.mem_singleton] at hr
                subst hr
                have hk : k = k + (j + 1) := hidx
                omega
              · simp at hr
            · exact ⟨r, hr, by omega⟩
          · rintro ⟨r, hr, hidx⟩
            refine ⟨r, ?_, by omega⟩
            rw [visRecsAux]
            exact List.mem_append_right _ hr

lemma visRecsAux_fields (s : Vec3) :
    ∀ (ts : List Tri) (k : ℕ), ∀ r ∈ visRecsAux s ts k,
      ∃ j, j < ts.length ∧ 0 < face_dot s (ts.getD j triDefault) ∧
        r = (k + j, norm3 (vsub s (face_center (ts.getD j triDefault))),
          calculate_angle (view_vector_of s (face_center (ts.getD j triDefault)))
            (calculate_face_normal (ts.getD j triDefault).1 (ts.getD j triDefault).2.1
              (ts.getD j triDefault).2.2)) := by
  intro ts
  induction ts with
  | nil => intro k r hr; simp [visRecsAux] at hr
  | cons t rest ih =>
      intro k r hr
      rw [visRecsAux] at hr
      rcases List.mem_append.mp hr with hr | hr
      · split at hr
        next hc =>
          rw [List.mem_singleton] at hr
          subst hr
          exact ⟨0, by simp, by simpa using hc, by simp⟩
        next => simp at hr
      · obtain ⟨j, hj, hc, heq⟩ := ih (k + 1) r hr
        refine ⟨j + 1, by simp only [List.length_cons]; omega, by simpa using hc, ?_⟩
        have harith : k + (j + 1) = (k + 1) + j := by omega
        rw [harith]
        simpa [List.getD_cons_succ] using heq

/-- C2: for every sensor and face list, the emitted visibility records have
strictly increasing face indices (so no face index appears twice), a face
index appears among the records exactly when the dot product of its normal
with the normalized sensor-to-center view vector is positive, and every
record carries the distance from the sensor to the face center and the
clamped arccos angle of its face. -/
theorem visible_records_correct (sensor : Vec3) (ts : List Tri) :
    List.Pairwise (fun r q : VisRec => r.1 < q.1) (plot_sensor_visible_records sensor ts) ∧
    (∀ i, i < ts.length →
      ((∃ r ∈ plot_sensor_visible_records sensor ts, r.1 = i) ↔
        0 < face_dot sensor (ts.getD i triDefault))) ∧
    (∀ r ∈ plot_sensor_visible_records sensor ts,
      r.1 < ts.length ∧
      0 < face_dot sensor (ts.getD r.1 triDefault) ∧
      r.2.1 = norm3 (vsub sensor (face_center (ts.getD r.1 triDefault))) ∧
      r.2.2 = calculate_angle (view_vector_of sensor (face_center (ts.getD r.1 triDefault)))
        (calculate_face_normal (ts.getD r.1 triDefault).1 (ts.getD r.1 triDefault).2.1
          (ts.getD r.1 triDefault).2.2)) := by
  refine ⟨visRecsAux_pairwise sensor ts 0, ?_, ?_⟩
  · intro i hi
    have h := visRecsAux_mem_iff sensor ts 0 i hi
    simpa using h
  · intro r hr
    obtain ⟨j, hj, hc, heq⟩ := visRecsAux_fields sensor ts 0 r hr
    subst heq
    simp only [Nat.zero_add]
    exact ⟨hj, hc, trivial, trivial⟩

lemma clipped_angle_bounds {d : ℝ} (hd : 0 < d) :
    rad2deg (Real.arccos (npclip d (-1) 1)) < 90 ∧
    1 < 1 + Real.cos (deg2rad (rad2deg (Real.arccos (npclip d (-1) 1)))) := by
  set t := npclip d (-1) 1 with ht
  have ht0 : 0 < t := by
    rw [ht]
    unfold npclip
    rw [max_eq_left (by linarith : (-1 : ℝ) ≤ d)]
    exact lt_min hd one_pos
  have ht1 : t ≤ 1 := min_le_right _ _
  have harc : Real.arccos t < π / 2 := Real.arccos_lt_pi_div_two.mpr ht0
  have hpi : (0 : ℝ) < π := Real.pi_pos
  constructor
  · rw [rad2deg, div_lt_iff₀ hpi]
    linarith [mul_lt_mul_of_pos_right harc (show (0 : ℝ) < 180 by norm_num)]
  · have hroundtrip : deg2rad (rad2deg (Real.arccos t)) = Real.arccos t := by
      unfold deg2rad rad2deg
      field_simp
    rw [hroundtrip, Real.cos_arccos (by linarith) ht1]
    linarith

/-- C10: every angle stored in a visibility record comes from a face that
passed the back-face test, hence is strictly below 90 degrees, and the
angle-penalty denominator 1 + cos(angle) of `evaluate_coverage_view_plan`
is strictly above 1 and in particular never zero. -/
theorem angle_penalty_terms_safe (sensor : Vec3) (ts : List Tri) :
    ∀ r ∈ plot_sensor_visible_records sensor ts,
      r.2.2 < 90 ∧ 1 < 1 + Real.cos (deg2rad r.2.2) ∧ 1 + Real.cos (deg2rad r.2.2) ≠ 0 := by
  intro r hr
  obtain ⟨j, hj, hc, heq⟩ := visRecsAux_fields sensor ts 0 r hr
  subst heq
  have hdot : 0 < dot3 (view_vector_of sensor (face_center (ts.getD j triDefault)))
      (calculate_face_normal (ts.getD j triDefault).1 (ts.getD j triDefault).2.1
        (ts.getD j triDefault).2.2) := by
    rw [dot3_comm]
    exact hc
  have h := clipped_angle_bounds hdot
  exact ⟨h.1, h.2, ne_of_gt (lt_trans zero_lt_one h.2)⟩

/-! ### Concrete witness data for the visibility records -/

/-- Concrete demonstration face: a unit right triangle in the xy plane. -/
def demoTri : Tri := ((0, 0, 0), (1, 0, 0), (0, 1, 0))

/-- Concrete demonstration sensor placed above the center of `demoTri`. -/
def demoSensor : Vec3 := (1 / 3, 1 / 3, 5)

lemma demo_records_eval :
    plot_sensor_visible_records demoSensor [demoTri] = [(0, 5, 0)] := by
  have h25 : Real.sqrt 25 = 5 := by
    rw [show (25 : ℝ) = 5 ^ 2 by norm_num]
    exact Real.sqrt_sq (by norm_num)
  norm_num [plot_sensor_visible_records, visRecsAux, face_dot, face_center, view_vector_of,
    calculate_face_normal, calculate_angle, vadd, vsub, vdiv, cross3, dot3, norm3, npclip,
    demoSensor, demoTri, h25, Real.sqrt_one, Real.arccos_one, rad2deg]

/-- Witness for C2: the concrete face is visible from the concrete sensor and
its record is emitted with index 0 below the face-list length. -/
theorem visible_records_correct_witness :
    ((0 : ℕ), (5 : ℝ), (0 : ℝ)) ∈ plot_sensor_visible_records demoSensor [demoTri] ∧
    ((0 : ℕ), (5 : ℝ), (0 : ℝ)).1 < ([demoTri] : List Tri).length ∧
    0 < face_dot demoSensor (([demoTri] : List Tri).getD ((0 : ℕ), (5 : ℝ), (0 : ℝ)).1 triDefault) := by
  have hmem : ((0 : ℕ), (5 : ℝ), (0 : ℝ)) ∈ plot_sensor_visible_records demoSensor [demoTri] := by
    rw [demo_records_eval]
    exact List.mem_singleton.mpr rfl
  have h := (visible_records_correct demoSensor [demoTri]).2.2 _ hmem
  exact ⟨hmem, h.1, h.2.1⟩

/-- Witness for C10: the concrete record has angle 0, below 90 degrees, and
its angle-penalty denominator is above 1 and nonzero. -/
theorem angle_penalty_terms_safe_witness :
    ((0 : ℕ), (5 : ℝ), (0 : ℝ)) ∈ plot_sensor_visible_records demoSensor [demoTri] ∧
    (0 : ℝ) < 90 ∧ 1 < 1 + Real.cos (deg2rad 0) ∧ 1 + Real.cos (deg2rad 0) ≠ 0 := by
  have hmem : ((0 : ℕ), (5 : ℝ), (0 : ℝ)) ∈ plot_sensor_visible_records demoSensor [demoTri] := by
    rw [demo_records_eval]
    exact List.mem_singleton.mpr rfl
  have h := angle_penalty_terms_safe demoSensor [demoTri] _ hmem
  exact ⟨hmem, h.1, h.2.1, h.2.2⟩

/-! ### Claim C1: monotonicity of the randomized viewpoint search -/

lemma headD_mem {α : Type} (l : List α) (d : α) (h : l ≠ []) : l.headD d ∈ l := by
  cases l with
  | nil => exact absurd rfl h
  | cons a t => simp

lemma bestSnd_cons (p : Vec3 × ℕ) (rest : List (Vec3 × ℕ)) :
    bestSnd (p :: rest) = max p.2 (bestSnd rest) := by
  simp [bestSnd]

lemma le_bestSnd_of_mem : ∀ (pool : List (Vec3 × ℕ)), ∀ x ∈ pool, x.2 ≤ bestSnd pool := by
  intro pool
  induction pool with
  | nil => intro x hx; simp at hx
  | cons p rest ih =>
      intro x hx
      rw [bestSnd_cons]
      rcases List.mem_cons.mp hx with rfl | hx
      · exact le_max_left _ _
      · exact le_trans (ih x hx) (le_max_right _ _)

lemma exists_ge_bestSnd : ∀ (pool : List (Vec3 × ℕ)), pool ≠ [] →
    ∃ x ∈ pool, bestSnd pool ≤ x.2 := by
  intro pool
  induction pool with
  | nil => intro h; exact absurd rfl h
  | cons p rest ih =>
      intro _
      rcases le_total (bestSnd rest) p.2 with h | h
      · exact ⟨p, List.mem_cons_self p rest, by rw [bestSnd_cons, max_eq_left h]⟩
      · cases rest with
        | nil => exact ⟨p, List.mem_cons_self p [], by simp [bestSnd]⟩
        | cons q t =>
            obtain ⟨x, hx, hb⟩ := ih (by simp)
            exact ⟨x, List.mem_cons_of_mem p hx,
              by rw [bestSnd_cons, max_eq_right h]; exact hb⟩

lemma bestSnd_le (pool : List (Vec3 × ℕ)) (m : ℕ) (h : ∀ x ∈ pool, x.2 ≤ m) :
    bestSnd pool ≤ m := by
  induction pool with
  | nil => simp [bestSnd]
  | cons p rest ih =>
      rw [bestSnd_cons]
      exact max_le (h p (List.mem_cons_self p rest))
        (ih (fun x hx => h x (List.mem_cons_of_mem p hx)))

lemma mergeSort_desc_head (L : List (Vec3 × ℕ)) (hL : L ≠ []) :
    ∃ h0 t, L.mergeSort (fun a b => decide (b.2 ≤ a.2)) = h0 :: t ∧
      ∀ x ∈ L.mergeSort (fun a b => decide (b.2 ≤ a.2)), x.2 ≤ h0.2 := by
  have hperm := List.mergeSort_perm L (fun a b => decide (b.2 ≤ a.2))
  have hsne : L.mergeSort (fun a b => decide (b.2 ≤ a.2)) ≠ [] := by
    intro he
    have := hperm.length_eq
    rw [he] at this
    exact hL (List.length_eq_zero.mp this.symm)
  have hsorted : (L.mergeSort (fun a b => decide (b.2 ≤ a.2))).Pairwise
      (fun a b => decide (b.2 ≤ a.2)) :=
    List.sorted_mergeSort
      (fun a b c hab hbc => by
        simp only [decide_eq_true_eq] at hab hbc ⊢; omega)
      (fun a b => by
        simp only [Bool.or_eq_true, decide_eq_true_eq]; omega)
      L
  cases he : L.mergeSort (fun a b => decide (b.2 ≤ a.2)) with
  | nil => exact absurd he hsne
  | cons h0 t =>
      rw [he] at hsorted
      refine ⟨h0, t, rfl, ?_⟩
      intro x hx
      rcases List.mem_cons.mp hx with rfl | hx
      · exact le_refl _
      · have := (List.pairwise_cons.mp hsorted).1 x hx
        simpa only [decide_eq_true_eq] using this

lemma search_step_spec (pool : List (Vec3 × ℕ)) (news : List Vec3) (hne : pool ≠ []) :
    search_step pool news ≠ [] ∧
    (∀ x ∈ search_step pool news, x ∈ pool ∨ x.2 = eval_count x.1) ∧
    bestSnd pool ≤ bestSnd (search_step pool news) ∧
    ((search_step pool news).headD (initial_position, 0)).2 = bestSnd (search_step pool news) := by
  have hLne : pool ++ news.map (fun q => (q, eval_count q)) ≠ [] := by
    intro h
    rcases List.append_eq_nil.mp h with ⟨h1, _⟩
    exact hne h1
  obtain ⟨h0, t, he, hdom⟩ := mergeSort_desc_head _ hLne
  have hstep : search_step pool news = h0 :: t.take 9 := by
    rw [search_step, he, show (10 : ℕ) = 9 + 1 from rfl, List.take_succ_cons]
  have hsub : ∀ x ∈ search_step pool news,
      x ∈ pool ++ news.map (fun q => (q, eval_count q)) := by
    intro x hx
    rw [search_step] at hx
    exact List.mem_mergeSort.mp (List.take_subset _ _ hx)
  have hdom' : ∀ x ∈ search_step pool news, x.2 ≤ h0.2 := by
    intro x hx
    rw [search_step] at hx
    exact hdom x (List.take_subset _ _ hx)
  have hh0 : h0 ∈ search_step pool news := by
    rw [hstep]; exact List.mem_cons_self _ _
  refine ⟨by rw [hstep]; simp, ?_, ?_, ?_⟩
  · intro x hx
    rcases List.mem_append.mp (hsub x hx) with h | h
    · exact Or.inl h
    · obtain ⟨q, _, rfl⟩ := List.mem_map.mp h
      exact Or.inr rfl
  · obtain ⟨x, hxp, hxb⟩ := exists_ge_bestSnd pool hne
    have hxL : x ∈ pool ++ news.map (fun q => (q, eval_count q)) :=
      List.mem_append_left _ hxp
    have hxs : x.2 ≤ h0.2 := hdom x (List.mem_mergeSort.mpr hxL)
    calc bestSnd pool ≤ x.2 := hxb
      _ ≤ h0.2 := hxs
      _ ≤ bestSnd (search_step pool news) := le_bestSnd_of_mem _ h0 hh0
  · have hhead : (search_step pool news).headD (initial_position, 0) = h0 := by
      rw [hstep]
      rfl
    rw [hhead]
    exact le_antisymm (le_bestSnd_of_mem _ h0 hh0) (bestSnd_le _ _ hdom')

lemma foldl_search_spec : ∀ (seq : List (List Vec3)) (pool : List (Vec3 × ℕ)),
    pool ≠ [] → (∀ x ∈ pool, x.2 = eval_count x.1) →
    ((pool.headD (initial_position, 0)).2 = bestSnd pool) →
    (seq.foldl search_step pool ≠ [] ∧
     (∀ x ∈ seq.foldl search_step pool, x.2 = eval_count x.1) ∧
     ((seq.foldl search_step pool).headD (initial_position, 0)).2
        = bestSnd (seq.foldl search_step pool) ∧
     bestSnd pool ≤ bestSnd (seq.foldl search_step pool)) := by
  intro seq
  induction seq with
  | nil => intro pool h1 h2 h3; exact ⟨h1, h2, h3, le_refl _⟩
  | cons b sb ih =>
      intro pool h1 h2 h3
      obtain ⟨s1, s2, s3, s4⟩ := search_step_spec pool b h1
      have h2' : ∀ x ∈ search_step pool b, x.2 = eval_count x.1 := by
        intro x hx
        rcases s2 x hx with h | h
        · exact h2 x h
        · exact h
      obtain ⟨f1, f2, f3, f4⟩ := ih (search_step pool b) s1 h2' s4
      exact ⟨f1, f2, f3, le_trans s3 f4⟩

/-- C1: first, one iteration of the search never decreases the best stored
visible-face count of the candidate pool (parents survive into the merged,
sorted, truncated pool); second, for every sequence of random candidate
batches the returned position of `select_best_viewpoint` has a visible-face
count at least that of the initial position. -/
theorem select_best_viewpoint_monotone :
    (∀ (pool : List (Vec3 × ℕ)) (news : List Vec3), pool ≠ [] →
      bestSnd pool ≤ bestSnd (search_step pool news)) ∧
    (∀ seq : List (List Vec3),
      eval_count initial_position ≤ eval_count (select_best_viewpoint seq)) := by
  constructor
  · intro pool news hne
    exact (search_step_spec pool news hne).2.2.1
  · intro seq
    have h0ok : ∀ x ∈ [(initial_position, eval_count initial_position)],
        x.2 = eval_count x.1 := by
      intro x hx
      rw [List.mem_singleton] at hx
      subst hx
      rfl
    have h0head : (([(initial_position, eval_count initial_position)] :
        List (Vec3 × ℕ)).headD (initial_position, 0)).2
          = bestSnd [(initial_position, eval_count initial_position)] := by
      simp [bestSnd]
    obtain ⟨f1, f2, f3, f4⟩ := foldl_search_spec seq
      [(initial_position, eval_count initial_position)] (by simp) h0ok h0head
    set final := seq.foldl search_step [(initial_position, eval_count initial_position)] with hf
    have hmem : final.headD (initial_position, 0) ∈ final := headD_mem final _ f1
    have hbest0 : bestSnd [(initial_position, eval_count initial_position)]
        = eval_count initial_position := by
      simp [bestSnd]
    rw [select_best_viewpoint, ← hf]
    rw [← f2 _ hmem, f3]
    rw [hbest0] at f4
    exact f4

/-- Witness for C1 at the concrete singleton pool with an empty batch and the
empty batch sequence. -/
theorem select_best_viewpoint_monotone_witness :
    ([(initial_position, 0)] : List (Vec3 × ℕ)) ≠ [] ∧
    bestSnd [(initial_position, 0)] ≤ bestSnd (search_step [(initial_position, 0)] []) ∧
    eval_count initial_position ≤ eval_count (select_best_viewpoint []) :=
  ⟨by simp, select_best_viewpoint_monotone.1 [(initial_position, 0)] [] (by simp),
    select_best_viewpoint_monotone.2 []⟩

/-! ### Claims C6 and C7: atan2 and Euler-angle facts -/

lemma atan2_eq_arg (y x : ℝ) : atan2 y x = Complex.arg (x + y * Complex.I) := by
  rw [atan2, Complex.mk_eq_add_mul_I]

lemma atan2_cos_sin {θ : ℝ} (h : θ ∈ Set.Ioc (-π) π) :
    atan2 (Real.sin θ) (Real.cos θ) = θ := by
  rw [atan2_eq_arg, Complex.ofReal_cos, Complex.ofReal_sin]
  exact Complex.arg_cos_add_sin_mul_I h

lemma atan2_pos_smul {r : ℝ} (y x : ℝ) (hr : 0 < r) :
    atan2 (r * y) (r * x) = atan2 y x := by
  rw [atan2_eq_arg, atan2_eq_arg]
  have h : ((r * x : ℝ) : ℂ) + ((r * y : ℝ) : ℂ) * Complex.I
      = (r : ℂ) * (((x : ℝ) : ℂ) + ((y : ℝ) : ℂ) * Complex.I) := by
    push_cast
    ring
  rw [h, Complex.arg_real_mul _ hr]

lemma atan2_one_zero : atan2 1 0 = π / 2 := by
  rw [atan2_eq_arg]
  have h : ((0 : ℝ) : ℂ) + ((1 : ℝ) : ℂ) * Complex.I = Complex.I := by
    push_cast
    ring
  rw [h, Complex.arg_I]

lemma atan2_neg_one_zero : atan2 (-1) 0 = -(π / 2) := by
  rw [atan2_eq_arg]
  have h : ((0 : ℝ) : ℂ) + ((-1 : ℝ) : ℂ) * Complex.I = -Complex.I := by
    push_cast
    ring
  rw [h, Complex.arg_neg_I]

lemma atan2_one_one : atan2 1 1 = π / 4 := by
  have h2 : Real.sqrt 2 * Real.sqrt 2 = 2 := Real.mul_self_sqrt (by norm_num)
  have hs : Real.sqrt 2 * Real.sin (π / 4) = 1 := by
    rw [Real.sin_pi_div_four]
    calc Real.sqrt 2 * (Real.sqrt 2 / 2) = Real.sqrt 2 * Real.sqrt 2 / 2 := by ring
      _ = 1 := by rw [h2]; norm_num
  have hcos : Real.sqrt 2 * Real.cos (π / 4) = 1 := by
    rw [Real.cos_pi_div_four]
    calc Real.sqrt 2 * (Real.sqrt 2 / 2) = Real.sqrt 2 * Real.sqrt 2 / 2 := by ring
      _ = 1 := by rw [h2]; norm_num
  have hpi := Real.pi_pos
  calc atan2 1 1 = atan2 (Real.sqrt 2 * Real.sin (π / 4)) (Real.sqrt 2 * Real.cos (π / 4)) := by
        rw [hs, hcos]
    _ = atan2 (Real.sin (π / 4)) (Real.cos (π / 4)) :=
        atan2_pos_smul _ _ (Real.sqrt_pos.mpr (by norm_num))
    _ = π / 4 := atan2_cos_sin ⟨by linarith, by linarith⟩

lemma deg2rad_mem_Ioc {x : ℝ} (hx : x ∈ Set.Ioc (-180 : ℝ) 180) :
    deg2rad x ∈ Set.Ioc (-π) π := by
  obtain ⟨h1, h2⟩ := hx
  have hpi := Real.pi_pos
  have ha : 0 < (x + 180) * π := mul_pos (by linarith) hpi
  have hb : 0 ≤ (180 - x) * π := mul_nonneg (by linarith) hpi.le
  unfold deg2rad
  constructor
  · nlinarith
  · nlinarith

lemma rad2deg_deg2rad (x : ℝ) : rad2deg (deg2rad x) = x := by
  unfold deg2rad rad2deg
  field_simp

lemma rad2deg_zero : rad2deg 0 = 0 := by
  unfold rad2deg
  simp

lemma rad2deg_pi_div_two : rad2deg (π / 2) = 90 := by
  unfold rad2deg
  field_simp
  ring

lemma rad2deg_neg_pi_div_two : rad2deg (-(π / 2)) = -90 := by
  unfold rad2deg
  field_simp
  ring

lemma rad2deg_pi_div_four : rad2deg (π / 4) = 45 := by
  unfold rad2deg
  field_simp
  ring

lemma deg2rad_sub (a c : ℝ) : deg2rad a - deg2rad c = deg2rad (a - c) := by
  unfold deg2rad
  ring

lemma deg2rad_add (a c : ℝ) : deg2rad a + deg2rad c = deg2rad (a + c) := by
  unfold deg2rad
  ring

lemma deg2rad_ninety : deg2rad 90 = π / 2 := by
  unfold deg2rad
  ring

lemma deg2rad_neg_ninety : deg2rad (-90) = -(π / 2) := by
  unfold deg2rad
  ring

/-- Embeds `get_rotation_matrix` of Chart_viscualisation.py (lines 194-212):
builds the three axis rotations from Euler angles given in radians (the
callers convert slider degrees with `np.radians` first, lines 69-71) and
returns the combined matrix `np.dot(Rz, np.dot(Ry, Rx))`. -/
def get_rotation_matrix (rotation_x rotation_y rotation_z : ℝ) : Mat3 :=
  mat3_mul
    ⟨Real.cos rotation_z, -Real.sin rotation_z, 0,
     Real.sin rotation_z, Real.cos rotation_z, 0,
     0, 0, 1⟩
    (mat3_mul
      ⟨Real.cos rotation_y, 0, Real.sin rotation_y,
       0, 1, 0,
       -Real.sin rotation_y, 0, Real.cos rotation_y⟩
      ⟨1, 0, 0,
       0, Real.cos rotation_x, -Real.sin rotation_x,
       0, Real.sin rotation_x, Real.cos rotation_x⟩)

lemma get_rotation_matrix_entries (a b c : ℝ) :
    get_rotation_matrix (deg2rad a) (deg2rad b) (deg2rad c) =
      ⟨Real.cos (deg2rad b) * Real.cos (deg2rad c),
       Real.cos (deg2rad c) * Real.sin (deg2rad b) * Real.sin (deg2rad a)
         - Real.sin (deg2rad c) * Real.cos (deg2rad a),
       Real.cos (deg2rad c) * Real.sin (deg2rad b) * Real.cos (deg2rad a)
         + Real.sin (deg2rad c) * Real.sin (deg2rad a),
       Real.cos (deg2rad b) * Real.sin (deg2rad c),
       Real.sin (deg2rad c) * Real.sin (deg2rad b) * Real.sin (deg2rad a)
         + Real.cos (deg2rad c) * Real.cos (deg2rad a),
       Real.sin (deg2rad c) * Real.sin (deg2rad b) * Real.cos (deg2rad a)
         - Real.cos (deg2rad c) * Real.sin (deg2rad a),
       -Real.sin (deg2rad b),
       Real.cos (deg2rad b) * Real.sin (deg2rad a),
       Real.cos (deg2rad b) * Real.cos (deg2rad a)⟩ := by
  simp only [get_rotation_matrix, mat3_mul, Mat3.mk.injEq]
  refine ⟨?_, ?_, ?_, ?_, ?_, ?_, ?_, ?_, ?_⟩ <;> ring

lemma euler_roundtrip_nonsingular (a b c : ℝ)
    (ha : a ∈ Set.Ioc (-180 : ℝ) 180) (hb : b ∈ Set.Ioc (-180 : ℝ) 180)
    (hc : c ∈ Set.Ioc (-180 : ℝ) 180) (hcb : (1e-6 : ℝ) ≤ Real.cos (deg2rad b)) :
    rotation_matrix_to_euler_angles_T (get_rotation_matrix (deg2rad a) (deg2rad b) (deg2rad c)) = (a, b, c) := by
  have hcb0 : 0 < Real.cos (deg2rad b) := lt_of_lt_of_le (by norm_num) hcb
  rw [get_rotation_matrix_entries]
  unfold rotation_matrix_to_euler_angles_T
  dsimp only
  have hsy : Real.sqrt ((Real.cos (deg2rad b) * Real.cos (deg2rad c)) ^ 2
      + (Real.cos (deg2rad b) * Real.sin (deg2rad c)) ^ 2) = Real.cos (deg2rad b) := by
    have harg : (Real.cos (deg2rad b) * Real.cos (deg2rad c)) ^ 2
        + (Real.cos (deg2rad b) * Real.sin (deg2rad c)) ^ 2 = Real.cos (deg2rad b) ^ 2 := by
      have hpy := Real.sin_sq_add_cos_sq (deg2rad c)
      nlinarith [hpy]
    rw [harg, Real.sqrt_sq hcb0.le]
  rw [hsy]
  rw [if_neg (by push_neg; linarith)]
  rw [neg_neg]
  rw [atan2_pos_smul _ _ hcb0, atan2_pos_smul _ _ hcb0]
  rw [atan2_cos_sin (deg2rad_mem_Ioc ha), atan2_cos_sin (deg2rad_mem_Ioc hb),
    atan2_cos_sin (deg2rad_mem_Ioc hc)]
  rw [rad2deg_deg2rad, rad2deg_deg2rad, rad2deg_deg2rad]

lemma get_rotation_matrix_lock_pos (a c : ℝ) :
    get_rotation_matrix (deg2rad a) (deg2rad 90) (deg2rad c) =
      ⟨0, Real.sin (deg2rad (a - c)), Real.cos (deg2rad (a - c)),
       0, Real.cos (deg2rad (a - c)), -Real.sin (deg2rad (a - c)),
       -1, 0, 0⟩ := by
  have hc90 : Real.cos (deg2rad 90) = 0 := by rw [deg2rad_ninety]; exact Real.cos_pi_div_two
  have hs90 : Real.sin (deg2rad 90) = 1 := by rw [deg2rad_ninety]; exact Real.sin_pi_div_two
  rw [get_rotation_matrix_entries, hc90, hs90]
  rw [← deg2rad_sub, Real.sin_sub, Real.cos_sub]
  simp only [Mat3.mk.injEq]
  refine ⟨?_, ?_, ?_, ?_, ?_, ?_, ?_, ?_, ?_⟩ <;> ring

lemma get_rotation_matrix_lock_neg (a c : ℝ) :
    get_rotation_matrix (deg2rad a) (deg2rad (-90)) (deg2rad c) =
      ⟨0, -Real.sin (deg2rad (a + c)), -Real.cos (deg2rad (a + c)),
       0, Real.cos (deg2rad (a + c)), -Real.sin (deg2rad (a + c)),
       1, 0, 0⟩ := by
  have hc90 : Real.cos (deg2rad (-90)) = 0 := by
    rw [deg2rad_neg_ninety, Real.cos_neg]
    exact Real.cos_pi_div_two
  have hs90 : Real.sin (deg2rad (-90)) = -1 := by
    rw [deg2rad_neg_ninety, Real.sin_neg, Real.sin_pi_div_two]
  rw [get_rotation_matrix_entries, hc90, hs90]
  rw [← deg2rad_add, Real.sin_add, Real.cos_add]
  simp only [Mat3.mk.injEq]
  refine ⟨?_, ?_, ?_, ?_, ?_, ?_, ?_, ?_, ?_⟩ <;> ring

lemma sqrt_zero_arg : Real.sqrt ((0 : ℝ) ^ 2 + 0 ^ 2) = 0 := by
  norm_num

lemma euler_lock_pos (a c : ℝ) (hac : a - c ∈ Set.Ioc (-180 : ℝ) 180) :
    rotation_matrix_to_euler_angles_T (get_rotation_matrix (deg2rad a) (deg2rad 90) (deg2rad c)) = (a - c, 90, 0) := by
  rw [get_rotation_matrix_lock_pos]
  unfold rotation_matrix_to_euler_angles_T
  dsimp only
  rw [sqrt_zero_arg]
  rw [if_pos (by norm_num)]
  rw [neg_neg, neg_neg]
  rw [atan2_cos_sin (deg2rad_mem_Ioc hac), atan2_one_zero]
  rw [rad2deg_deg2rad, rad2deg_pi_div_two, rad2deg_zero]

lemma euler_lock_neg (a c : ℝ) (hac : a + c ∈ Set.Ioc (-180 : ℝ) 180) :
    rotation_matrix_to_euler_angles_T (get_rotation_matrix (deg2rad a) (deg2rad (-90)) (deg2rad c)) = (a + c, -90, 0) := by
  rw [get_rotation_matrix_lock_neg]
  unfold rotation_matrix_to_euler_angles_T
  dsimp only
  rw [sqrt_zero_arg]
  rw [if_pos (by norm_num)]
  rw [neg_neg]
  rw [atan2_cos_sin (deg2rad_mem_Ioc hac), atan2_neg_one_zero]
  rw [rad2deg_deg2rad, rad2deg_neg_pi_div_two, rad2deg_zero]

/-- Concrete matrix separating the two beta formulas: its third row is a
unit vector while sqrt(m00^2 + m10^2) is 1 and sqrt(m21^2 + m22^2) is 0. -/
def c6_matrix : Mat3 := ⟨1, 0, 0, 0, 1, 0, -1, 0, 0⟩

/-- C6 counterexample: on `c6_matrix` the non-singular branch is taken
(sy = 1), and the code computes beta = atan2(-R20, sqrt(R00^2+R10^2)) = 45
degrees, while the formula of the claim, beta = atan2(-R20,
sqrt(R21^2+R22^2)), gives 90 degrees. -/
theorem euler_beta_formula_counterexample :
    (rotation_matrix_to_euler_angles_T c6_matrix).2.1 = 45 ∧
    rad2deg (atan2 (-c6_matrix.m20) (Real.sqrt (c6_matrix.m21 ^ 2 + c6_matrix.m22 ^ 2))) = 90 ∧
    (45 : ℝ) ≠ 90 := by
  refine ⟨?_, ?_, by norm_num⟩
  · unfold rotation_matrix_to_euler_angles_T c6_matrix
    dsimp only
    have hsy : Real.sqrt ((1 : ℝ) ^ 2 + 0 ^ 2) = 1 := by
      norm_num
    rw [hsy]
    rw [if_neg (by norm_num)]
    dsimp only
    rw [neg_neg, atan2_one_one, rad2deg_pi_div_four]
  · unfold c6_matrix
    dsimp only
    have h0 : Real.sqrt ((0 : ℝ) ^ 2 + 0 ^ 2) = 0 := sqrt_zero_arg
    rw [h0, neg_neg, atan2_one_zero, rad2deg_pi_div_two]

/-- C6 amended: the Testing_with_Euler_angles version computes beta with
second argument sy = sqrt(R00^2+R10^2) in both branches (not
sqrt(R21^2+R22^2) as claimed), alpha and theta exactly as claimed in the
non-singular branch, and the claimed singular branch alpha = atan2(-R12,R11),
theta = 0; for matrices whose first column and third row are unit vectors the
two beta denominators agree; the orientation.py version uses the claimed beta
formula but has no singular branch at all. -/
theorem matrix_to_euler_formulas (R : Mat3) :
    (¬ Real.sqrt (R.m00 ^ 2 + R.m10 ^ 2) < 1e-6 →
      rotation_matrix_to_euler_angles_T R
        = (rad2deg (atan2 R.m21 R.m22),
           rad2deg (atan2 (-R.m20) (Real.sqrt (R.m00 ^ 2 + R.m10 ^ 2))),
           rad2deg (atan2 R.m10 R.m00))) ∧
    (Real.sqrt (R.m00 ^ 2 + R.m10 ^ 2) < 1e-6 →
      rotation_matrix_to_euler_angles_T R
        = (rad2deg (atan2 (-R.m12) R.m11),
           rad2deg (atan2 (-R.m20) (Real.sqrt (R.m00 ^ 2 + R.m10 ^ 2))),
           rad2deg 0)) ∧
    (R.m00 ^ 2 + R.m10 ^ 2 + R.m20 ^ 2 = 1 → R.m20 ^ 2 + R.m21 ^ 2 + R.m22 ^ 2 = 1 →
      Real.sqrt (R.m21 ^ 2 + R.m22 ^ 2) = Real.sqrt (R.m00 ^ 2 + R.m10 ^ 2)) ∧
    rotation_matrix_to_euler_angles_O R
      = (rad2deg (atan2 R.m21 R.m22),
         rad2deg (atan2 (-R.m20) (Real.sqrt (R.m21 ^ 2 + R.m22 ^ 2))),
         rad2deg (atan2 R.m10 R.m00)) := by
  refine ⟨?_, ?_, ?_, rfl⟩
  · intro h
    unfold rotation_matrix_to_euler_angles_T
    rw [if_neg h]
  · intro h
    unfold rotation_matrix_to_euler_angles_T
    rw [if_pos h]
  · intro h1 h2
    have : R.m21 ^ 2 + R.m22 ^ 2 = R.m00 ^ 2 + R.m10 ^ 2 := by linarith
    rw [this]

/-- Witness for C6 at the identity rotation matrix, which takes the
non-singular branch. -/
theorem matrix_to_euler_formulas_witness :
    ¬ Real.sqrt (((1 : ℝ)) ^ 2 + (0 : ℝ) ^ 2) < 1e-6 ∧
    rotation_matrix_to_euler_angles_T ⟨1, 0, 0, 0, 1, 0, 0, 0, 1⟩
      = (rad2deg (atan2 0 1), rad2deg (atan2 (-0) (Real.sqrt (((1 : ℝ)) ^ 2 + (0 : ℝ) ^ 2))),
         rad2deg (atan2 0 1)) := by
  have h : ¬ Real.sqrt (((1 : ℝ)) ^ 2 + (0 : ℝ) ^ 2) < 1e-6 := by
    have h1 : Real.sqrt (((1 : ℝ)) ^ 2 + (0 : ℝ) ^ 2) = 1 := by norm_num
    rw [h1]
    norm_num
  exact ⟨h, (matrix_to_euler_formulas ⟨1, 0, 0, 0, 1, 0, 0, 0, 1⟩).1 h⟩

/-- C7 amended: composing the Euler angles a, b, c (degrees, converted with
np.radians as the callers of `get_rotation_matrix` do) and extracting with
`matrixToEuler` returns (a, b, c) exactly away from gimbal lock (cos(beta) at
least 1e-6, all angles in the half-open interval from -180 to 180 degrees);
at beta = -90 degrees the sum alpha + theta is preserved, the output being
(a + c, -90, 0); at beta = +90 degrees it is the difference alpha - theta
that is preserved, the output being (a - c, 90, 0), not the sum. -/
theorem euler_roundtrip_amended (a b c : ℝ)
    (ha : a ∈ Set.Ioc (-180 : ℝ) 180) (hb : b ∈ Set.Ioc (-180 : ℝ) 180)
    (hc : c ∈ Set.Ioc (-180 : ℝ) 180) :
    ((1e-6 : ℝ) ≤ Real.cos (deg2rad b) →
      rotation_matrix_to_euler_angles_T (get_rotation_matrix (deg2rad a) (deg2rad b) (deg2rad c)) = (a, b, c)) ∧
    (a + c ∈ Set.Ioc (-180 : ℝ) 180 →
      rotation_matrix_to_euler_angles_T (get_rotation_matrix (deg2rad a) (deg2rad (-90)) (deg2rad c)) = (a + c, -90, 0)) ∧
    (a - c ∈ Set.Ioc (-180 : ℝ) 180 →
      rotation_matrix_to_euler_angles_T (get_rotation_matrix (deg2rad a) (deg2rad 90) (deg2rad c)) = (a - c, 90, 0)) :=
  ⟨fun hcb => euler_roundtrip_nonsingular a b c ha hb hc hcb,
   fun hac => euler_lock_neg a c hac,
   fun hac => euler_lock_pos a c hac⟩

/-- C7 counterexample: at (alpha, beta, theta) = (30, 90, 20) degrees the
extraction applied to the composed rotation returns (10, 90, 0): the
recovered sum alpha + theta is 10, not the original sum 50 (the difference
30 - 20 is what is preserved at beta = +90). -/
theorem euler_lock_sum_counterexample :
    rotation_matrix_to_euler_angles_T (get_rotation_matrix (deg2rad 30) (deg2rad 90) (deg2rad 20)) = (10, 90, 0) ∧
    (10 : ℝ) + 0 ≠ 30 + 20 := by
  constructor
  · have h := euler_lock_pos 30 20 (by constructor <;> norm_num)
    norm_num at h
    exact h
  · norm_num

/-- Witness for C7 at the concrete angles (30, 0, 20). -/
theorem euler_roundtrip_amended_witness :
    (30 : ℝ) ∈ Set.Ioc (-180 : ℝ) 180 ∧ (0 : ℝ) ∈ Set.Ioc (-180 : ℝ) 180 ∧
    (20 : ℝ) ∈ Set.Ioc (-180 : ℝ) 180 ∧
    (((1e-6 : ℝ) ≤ Real.cos (deg2rad 0) →
      rotation_matrix_to_euler_angles_T (get_rotation_matrix (deg2rad 30) (deg2rad 0) (deg2rad 20)) = (30, 0, 20)) ∧
    ((30 : ℝ) + 20 ∈ Set.Ioc (-180 : ℝ) 180 →
      rotation_matrix_to_euler_angles_T (get_rotation_matrix (deg2rad 30) (deg2rad (-90)) (deg2rad 20)) = (30 + 20, -90, 0)) ∧
    ((30 : ℝ) - 20 ∈ Set.Ioc (-180 : ℝ) 180 →
      rotation_matrix_to_euler_angles_T (get_rotation_matrix (deg2rad 30) (deg2rad 90) (deg2rad 20)) = (30 - 20, 90, 0))) := by
  refine ⟨⟨by norm_num, by norm_num⟩, ⟨by norm_num, by norm_num⟩, ⟨by norm_num, by norm_num⟩, ?_⟩
  exact euler_roundtrip_amended 30 0 20 ⟨by norm_num, by norm_num⟩ ⟨by norm_num, by norm_num⟩
    ⟨by norm_num, by norm_num⟩
